import Mathlib

/-!
Shallow embedding of `src/pdf_extractor.py` (ANSI Standards PDF Data Extractor).

Python strings are modelled as Lean `String` (lists of characters), Python
lists as Lean lists, and Python exceptions as `Option`/`Except` results:
an operation that would raise returns `none`.  Appends to the six mutable
accumulator lists of the `ANSIStandardsExtractor` object are modelled by
explicit state passing over `ExtractorState`.
-/

namespace PdfAnsi

/-- Python whitespace test, as used by `str.split()` and `str.strip()`
(ASCII range). -/
def pyIsSpace (c : Char) : Bool :=
  c = ' ' || c = '\t' || c = '\n' || c = '\r' || c = '\x0b' || c = '\x0c'

/-- Boolean test that the first list is an initial run of the second. -/
def leadsWith : List Char → List Char → Bool
  | [], _ => true
  | _ :: _, [] => false
  | a :: arest, b :: brest => a == b && leadsWith arest brest

/-- Python substring membership test `sub in s` over character lists. -/
def isSubstr (sub : List Char) : List Char → Bool
  | [] => sub.isEmpty
  | c :: rest => leadsWith sub (c :: rest) || isSubstr sub rest

/-- Python `sub in s`. -/
def strContains (s sub : String) : Bool := isSubstr sub.data s.data

/-- Python `s.split(sep)` over characters, for a non-empty separator
`s0 :: srest`: split at every leftmost, non-overlapping occurrence.
`skip` counts separator characters still to be consumed after a match. -/
def pySplitAux (s0 : Char) (srest : List Char) : List Char → Nat → List (List Char)
  | [], _ => [[]]
  | _ :: rest, skip+1 => pySplitAux s0 srest rest skip
  | c :: rest, 0 =>
    if leadsWith (s0 :: srest) (c :: rest) then
      [] :: pySplitAux s0 srest rest srest.length
    else
      match pySplitAux s0 srest rest 0 with
      | [] => [[c]]
      | p :: tl => (c :: p) :: tl

/-- Python `s.split(sep)` over characters for separator `s0 :: srest`. -/
def pySplitChars (s0 : Char) (srest : List Char) (l : List Char) :
    List (List Char) :=
  pySplitAux s0 srest l 0

/-- Python `s.split(sep)` (the script only ever uses non-empty separators). -/
def pySplit (s sep : String) : List String :=
  match sep.data with
  | [] => [s]
  | s0 :: srest => (pySplitChars s0 srest s.data).map (fun l => ⟨l⟩)

/-- Python `s.split()` over characters: whitespace-delimited words, empty
pieces dropped; `acc` holds the reversed current word. -/
def pyWordsAux : List Char → List Char → List (List Char)
  | [], acc => if acc.isEmpty then [] else [acc.reverse]
  | c :: rest, acc =>
    if pyIsSpace c then
      if acc.isEmpty then pyWordsAux rest [] else acc.reverse :: pyWordsAux rest []
    else pyWordsAux rest (c :: acc)

/-- Python `s.split()` over characters. -/
def pyWords (l : List Char) : List (List Char) := pyWordsAux l []

/-- Python `s.split()`. -/
def pySplitWs (s : String) : List String := (pyWords s.data).map (fun l => ⟨l⟩)

/-- Python `s.strip()` over characters. -/
def pyStripChars (l : List Char) : List Char :=
  ((l.dropWhile pyIsSpace).reverse.dropWhile pyIsSpace).reverse

/-- Python `s.strip()`. -/
def pyStrip (s : String) : String := ⟨pyStripChars s.data⟩

/-- Python `s.lstrip(' ')`. -/
def pyLstripSpace (s : String) : String := ⟨s.data.dropWhile (fun c => c == ' ')⟩

/-- Python `s[:-n]`: drop the last `n` characters (everything when
`n ≥ len(s)`). -/
def pyDropRight (s : String) (n : Nat) : String :=
  ⟨s.data.take (s.data.length - n)⟩

/-- Python `s.startswith(p)`. -/
def pyStartsWith (s p : String) : Bool := leadsWith p.data s.data

/-- The table-level cleanup `df['Legal Name'].str.replace('[()]', '', regex=True)`
applied to one value: remove every parenthesis character. -/
def stripParens (s : String) : String :=
  ⟨s.data.filter (fun c => !(c == '(' || c == ')'))⟩

/-- The Legal Name column cleanup in `create_dataframe`. -/
def cleanLegalNames (l : List String) : List String := l.map stripParens

/-- Python `sep.join(l)`. -/
def strJoin (sep : String) : List String → String
  | [] => ""
  | [x] => x
  | x :: y :: rest => x ++ sep ++ strJoin sep (y :: rest)

/-- The marker substring `'Final Action Date'`. -/
def markerStr : String := "Final Action Date"

/-- The split key `'Final Action Date: '` used for the date value. -/
def markerSplit : String := "Final Action Date: "

/-- The boilerplate substring triggering the 106-character truncation. -/
def boilerStr : String := "The data in this document is reported"

/-- Continuation of the regex `\S+ \(` after at least one non-whitespace
character has been read: succeed on a space followed by an opening
parenthesis, keep scanning over non-whitespace characters. -/
def namePatTail : List Char → Bool
  | ' ' :: '(' :: _ => true
  | c :: rest => !pyIsSpace c && namePatTail rest
  | [] => false

/-- Python `re.match(r"\S+ \(", line)` viewed as a Boolean: the line starts
with one or more non-whitespace characters, then a space, then `(`. -/
def reMatchNamePat (line : String) : Bool :=
  match line.data with
  | [] => false
  | c :: rest => !pyIsSpace c && namePatTail rest

/-- Lines kept from one page (`parse_text_data`, lines 66-69):
split on newline, then `[11:-2]` for page index 0 and `[:-2]` otherwise. -/
def keptLines (i : Nat) (t : String) : List String :=
  let ls := pySplit t "\n"
  if i = 0 then (ls.take (ls.length - 2)).drop 11
  else ls.take (ls.length - 2)

/-- Positions of the kept lines containing the marker substring
(`parse_text_data`, lines 77-80), counting from `k`. -/
def finalActionIndicesAux (k : Nat) : List String → List Nat
  | [] => []
  | l :: rest =>
    if strContains l markerStr then k :: finalActionIndicesAux (k+1) rest
    else finalActionIndicesAux (k+1) rest

/-- `final_action_indices` for a page. -/
def finalActionIndices (page : List String) : List Nat :=
  finalActionIndicesAux 0 page

/-- The slices `page[start+1 : idx+1]` produced by the loop of
`parse_text_data` (lines 83-86); `s` carries `start+1`. -/
def segmentsAux (page : List String) : List Nat → Nat → List (List String)
  | [], _ => []
  | idx :: rest, s => ((page.take (idx+1)).drop s) :: segmentsAux page rest (idx+1)

/-- All segments of a page, in order. -/
def segmentsOf (page : List String) : List (List String) :=
  segmentsAux page (finalActionIndices page) 0

/-- The six accumulator lists of `ANSIStandardsExtractor`. -/
structure ExtractorState where
  operating_name : List String
  legal_name : List String
  website : List String
  document_name : List String
  standard_title : List String
  publishing_date : List String
deriving DecidableEq, Repr

/-- The state at construction: all six lists empty. -/
def initState : ExtractorState := ⟨[], [], [], [], [], []⟩

/-- Date values appended by the loop over `sub_list[-1].split('|')`
(lines 89-93); `none` models the `IndexError` when a piece contains the
marker but splitting on `'Final Action Date: '` yields a single piece. -/
def pubDates : List String → Option (List String)
  | [] => some []
  | k :: rest =>
    if strContains k markerStr then
      match pySplit k markerSplit with
      | _ :: v :: _ => (pubDates rest).map (fun ds => pyStrip v :: ds)
      | _ => none
    else pubDates rest

/-- `_extract_names` (lines 107-115), returning the (operating, legal) pairs
appended, in line order.  The inner `none` (a line with no whitespace-split
token) is unreachable when the regex matched. -/
def extract_names : List String → Option (List (String × String))
  | [] => some []
  | line :: rest =>
    if reMatchNamePat line then
      match pySplitWs line with
      | [] => none
      | t0 :: ts =>
        (extract_names rest).map (fun ns =>
          (t0,
            if strContains line boilerStr then
              pyDropRight (strJoin ", " ts) 106
            else strJoin ", " ts) :: ns)
    else extract_names rest

/-- `_extract_website` (lines 117-122), returning the values appended;
`none` models the `IndexError` from `split('|')[1]` or `split('w: ')[1]`. -/
def extract_website : List String → Option (List String)
  | [] => some []
  | line :: rest =>
    if strContains line "w: " then
      match pySplit line "|" with
      | _ :: f1 :: _ =>
        match pySplit f1 "w: " with
        | _ :: v :: _ => (extract_website rest).map (fun ws => pyStrip v :: ws)
        | _ => none
      | _ => none
    else extract_website rest

/-- The line test of `_extract_document_info` (line 127). -/
def ansiLinePred (l : String) : Bool :=
  (pyStartsWith l "ANSI" || pyStartsWith l "INCITS") && strContains l ","

/-- Position of the first line satisfying `ansiLinePred`, counting from `k`. -/
def findAnsiIndexAux (k : Nat) : List String → Option Nat
  | [] => none
  | l :: rest =>
    if ansiLinePred l then some k else findAnsiIndexAux (k+1) rest

/-- The `index` found by the loop of `_extract_document_info`; `none` models
the unbound-variable crash when no line matches. -/
def findAnsiIndex (sub_list : List String) : Option Nat :=
  findAnsiIndexAux 0 sub_list

/-- `_extract_document_info` (lines 124-135): document name and standard
title appended for a segment. -/
def extract_document_info (sub_list : List String) : Option (String × String) :=
  match findAnsiIndex sub_list with
  | none => none
  | some index =>
    let joined := strJoin " " ((sub_list.take (sub_list.length - 1)).drop index)
    some ((pySplit joined ",").headD "",
      pyLstripSpace (strJoin " " (pySplit joined ",").tail))

/-- `_ensure_data_consistency` (lines 137-144); `none` models the
`IndexError` of reading `[-1]` from an empty list. -/
def ensure_data_consistency (st : ExtractorState) : Option ExtractorState :=
  match (if st.operating_name.length < st.standard_title.length then
           match st.operating_name.getLast?, st.legal_name.getLast? with
           | some o, some l =>
             some { st with operating_name := st.operating_name ++ [o],
                            legal_name := st.legal_name ++ [l] }
           | _, _ => none
         else some st) with
  | none => none
  | some st1 =>
    if st1.website.length < st1.standard_title.length then
      match st1.website.getLast? with
      | some w => some { st1 with website := st1.website ++ [w] }
      | none => none
    else some st1

/-- The body of the per-segment loop of `parse_text_data` (lines 84-105):
date, names, website and document information extraction followed by the
consistency step.  A `none` anywhere models the corresponding Python
exception aborting the run. -/
def processSegment (st : ExtractorState) (sub_list : List String) :
    Option ExtractorState :=
  (sub_list.getLast?).bind (fun lastLine =>
    (pubDates (pySplit lastLine "|")).bind (fun ds =>
      (extract_names sub_list).bind (fun ns =>
        (extract_website sub_list).bind (fun ws =>
          (extract_document_info sub_list).bind (fun di =>
            ensure_data_consistency
              { st with
                operating_name := st.operating_name ++ ns.map Prod.fst,
                legal_name := st.legal_name ++ ns.map Prod.snd,
                website := st.website ++ ws,
                document_name := st.document_name ++ [di.1],
                standard_title := st.standard_title ++ [di.2],
                publishing_date := st.publishing_date ++ ds })))))

/-- One iteration of the page loop of `parse_text_data` (lines 64-105):
the page-scoped `'Nil'` website fallback, then the segment loop. -/
def processPage (st : ExtractorState) (i : Nat) (t : String) :
    Option ExtractorState :=
  (segmentsOf (keptLines i t)).foldlM processSegment
    (if ((keptLines i t).filter (fun x => strContains x "w: ")).isEmpty then
       { st with website := st.website ++ ["Nil"] }
     else st)

/-- Python `enumerate` starting at `k`. -/
def pyEnumFrom (k : Nat) : List String → List (Nat × String)
  | [] => []
  | t :: ts => (k, t) :: pyEnumFrom (k+1) ts

/-- `parse_text_data` over the list of per-page texts, from state `st`. -/
def parse_text_data (st : ExtractorState) (text : List String) :
    Option ExtractorState :=
  (pyEnumFrom 0 text).foldlM (fun s p => processPage s p.1 p.2) st

/-- The total number of segments over all pages of `text`. -/
def totalSegments (text : List String) : Nat :=
  ((pyEnumFrom 0 text).map
    (fun p => (segmentsOf (keptLines p.1 p.2)).length)).sum

/-- All six accumulator lists have length `n`. -/
def lensEq (st : ExtractorState) (n : Nat) : Prop :=
  st.operating_name.length = n ∧ st.legal_name.length = n ∧
  st.website.length = n ∧ st.document_name.length = n ∧
  st.standard_title.length = n ∧ st.publishing_date.length = n

/-- Well-behaved segment: at most one name-pattern line, at most one
`'w: '` line, and exactly one pipe piece of the final line contains the
marker substring. -/
def goodSegment (seg : List String) : Prop :=
  seg.countP reMatchNamePat ≤ 1 ∧
  seg.countP (fun l => strContains l "w: ") ≤ 1 ∧
  (pySplit ((seg.getLast?).getD "") "|").countP
    (fun k => strContains k markerStr) = 1

/-- Well-behaved page: every segment is well behaved, and a page without
marker lines has a `'w: '` line among its kept lines (so the page-scoped
`'Nil'` fallback never runs ahead of the segment count). -/
def goodPage (i : Nat) (t : String) : Prop :=
  (∀ seg ∈ segmentsOf (keptLines i t), goodSegment seg) ∧
  (finalActionIndices (keptLines i t) = [] →
    (keptLines i t).filter (fun x => strContains x "w: ") ≠ [])

instance (seg : List String) : Decidable (goodSegment seg) := by
  unfold goodSegment; infer_instance

instance (i : Nat) (t : String) : Decidable (goodPage i t) := by
  unfold goodPage; infer_instance

/-- Outcome of the external read in `extract_pdf_text` (lines 41-58): the
`open`/`PyPDF2` collaborator either raises `FileNotFoundError`, raises some
other exception with message `e`, or yields the ordered per-page texts. -/
inductive ReadOutcome where
  | notFound : ReadOutcome
  | otherError : String → ReadOutcome
  | ok : List String → ReadOutcome

/-- `extract_pdf_text`: wrap the read outcome exactly as the
`try`/`except` blocks do. -/
def extract_pdf_text (pdf_path : String) (r : ReadOutcome) :
    Except String (List String) :=
  match r with
  | ReadOutcome.notFound => Except.error ("PDF file not found: " ++ pdf_path)
  | ReadOutcome.otherError e => Except.error ("Error reading PDF: " ++ e)
  | ReadOutcome.ok pages => Except.ok pages

/-- A one-page input whose single segment contains two name-pattern lines:
the run completes but the list lengths drift apart. -/
def demoDriftText : String :=
  "h\nh\nh\nh\nh\nh\nh\nh\nh\nh\nh\nA (B)\nC (D)\nx | w: e.com\nANSI 1, T\ny | Final Action Date: 2020\nf\nf"

/-- A one-page input satisfying every `goodPage` condition, with exactly
one segment. -/
def demoGoodText : String :=
  "h\nh\nh\nh\nh\nh\nh\nh\nh\nh\nh\nAcme (Acme Corp)\na | w: acme.org\nANSI X1, Title One\nb | Final Action Date: 2021-05-01 | c\nf\nf"

/-- A one-page input whose single segment has no ANSI/INCITS line. -/
def demoCrashText : String :=
  "h\nh\nh\nh\nh\nh\nh\nh\nh\nh\nh\nFoo\nBar | Final Action Date: 2020\nf\nf"

theorem segmentsAux_eq (page : List String) (idxs : List Nat) : ∀ (s : Nat),
    segmentsAux page idxs s = (List.range idxs.length).map (fun j =>
      (page.take (idxs.getD j 0 + 1)).drop
        (if j = 0 then s else idxs.getD (j-1) 0 + 1)) := by
  induction idxs with
  | nil => intro s; simp [segmentsAux]
  | cons idx rest ih =>
    intro s
    simp only [segmentsAux, ih (idx+1), List.length_cons,
      List.range_succ_eq_map, List.map_cons, List.map_map]
    congr 1
    apply List.map_congr_left
    intro a ha
    simp only [List.mem_range] at ha
    cases a with
    | zero => simp
    | succ m => simp

/-- C1: for every page, the segment loop of `parse_text_data` produces
exactly one segment per marker index, the `j`-th being
`lines[idx_(j-1)+1 : idx_j+1]` of the kept lines (with `idx_(-1) = -1`),
so each segment ends at and includes its marker line. -/
theorem seg_slices (i : Nat) (t : String) :
    segmentsOf (keptLines i t) =
      (List.range (finalActionIndices (keptLines i t)).length).map (fun j =>
        ((keptLines i t).take
            ((finalActionIndices (keptLines i t)).getD j 0 + 1)).drop
          (if j = 0 then 0
           else (finalActionIndices (keptLines i t)).getD (j-1) 0 + 1)) :=
  segmentsAux_eq (keptLines i t) (finalActionIndices (keptLines i t)) 0

theorem segmentsOf_eq_nil {page : List String}
    (h : finalActionIndices page = []) : segmentsOf page = [] := by
  simp [segmentsOf, h, segmentsAux]

/-- C2 counterexample: the empty non-first page has zero marker lines, yet
processing it appends `'Nil'` to the website list, so the resulting state
differs from the input state. -/
theorem page_zero_markers_nil_cex :
    finalActionIndices (keptLines 1 "") = [] ∧
    processPage initState 1 "" = some ⟨[], [], ["Nil"], [], [], []⟩ ∧
    processPage initState 1 "" ≠ some initState := by decide

/-- C2 (amended): a page with zero marker lines appends nothing to
operating_name, legal_name, document_name, standard_title and
publishing_date, and appends exactly one `'Nil'` to website when the kept
lines contain no `'w: '` line (and nothing otherwise). -/
theorem processPage_zero_markers (st : ExtractorState) (i : Nat) (t : String)
    (h : finalActionIndices (keptLines i t) = []) :
    processPage st i t =
      some (if ((keptLines i t).filter (fun x => strContains x "w: ")).isEmpty
            then { st with website := st.website ++ ["Nil"] }
            else st) := by
  unfold processPage
  rw [segmentsOf_eq_nil h]
  rfl

/-- Witness for C2 (amended) at the empty non-first page. -/
theorem processPage_zero_markers_witness :
    processPage initState 1 "" = some ⟨[], [], ["Nil"], [], [], []⟩ := by
  have h := processPage_zero_markers initState 1 "" (by decide)
  revert h
  decide

/-- C4 counterexample: on the single matching line
`"ACME (Example Corp, Inc.)"` the name step joins the remaining
whitespace tokens with `', '`, so the appended Legal Name is
`"(Example, Corp,, Inc.)"`, not `"(Example Corp, Inc.)"`. -/
theorem names_comma_join_cex :
    extract_names ["ACME (Example Corp, Inc.)"] =
      some [("ACME", "(Example, Corp,, Inc.)")] ∧
    extract_names ["ACME (Example Corp, Inc.)"] ≠
      some [("ACME", "(Example Corp, Inc.)")] := by decide

/-- C4 (amended): on `"ACME (Example Corp, Inc.)"` the name step appends
Operating Name `"ACME"` and Legal Name `"(Example, Corp,, Inc.)"`; the
table-level parenthesis stripping turns the latter into
`"Example, Corp,, Inc."`. -/
theorem names_comma_join :
    extract_names ["ACME (Example Corp, Inc.)"] =
      some [("ACME", "(Example, Corp,, Inc.)")] ∧
    cleanLegalNames ["(Example, Corp,, Inc.)"] = ["Example, Corp,, Inc."] := by
  decide

/-- C8: `extract_pdf_text` turns a missing file into a NotFound error whose
message carries the input path, wraps any other read failure in a generic
message, and on success returns the per-page texts unchanged and in order. -/
theorem extract_pdf_text_spec (p : String) (r : ReadOutcome) :
    (r = ReadOutcome.notFound →
      extract_pdf_text p r = Except.error ("PDF file not found: " ++ p)) ∧
    (∀ e, r = ReadOutcome.otherError e →
      extract_pdf_text p r = Except.error ("Error reading PDF: " ++ e)) ∧
    (∀ pages, r = ReadOutcome.ok pages →
      extract_pdf_text p r = Except.ok pages) := by
  refine ⟨fun h => ?_, fun e h => ?_, fun pages h => ?_⟩ <;> subst h <;> rfl

/-- Witness for C8 at a concrete path and all three read outcomes. -/
theorem extract_pdf_text_spec_witness :
    extract_pdf_text "a.pdf" ReadOutcome.notFound =
      Except.error ("PDF file not found: " ++ "a.pdf") ∧
    extract_pdf_text "a.pdf" (ReadOutcome.otherError "e") =
      Except.error ("Error reading PDF: " ++ "e") ∧
    extract_pdf_text "a.pdf" (ReadOutcome.ok ["t"]) = Except.ok ["t"] :=
  ⟨(extract_pdf_text_spec "a.pdf" ReadOutcome.notFound).1 rfl,
   (extract_pdf_text_spec "a.pdf" (ReadOutcome.otherError "e")).2.1 "e" rfl,
   (extract_pdf_text_spec "a.pdf" (ReadOutcome.ok ["t"])).2.2 ["t"] rfl⟩

/-- C10: `_ensure_data_consistency` crashes (returns `none`, modelling the
`IndexError` of reading `[-1]` from an empty list) whenever the lagging
list it would pad is empty: operating_name behind standard_title while
empty, or website behind standard_title while empty. -/
theorem reconciliation_needs_nonempty (st : ExtractorState) :
    (st.operating_name = [] →
      st.operating_name.length < st.standard_title.length →
      ensure_data_consistency st = none) ∧
    (st.website = [] →
      st.website.length < st.standard_title.length →
      ensure_data_consistency st = none) := by
  constructor
  · intro hop hlt
    unfold ensure_data_consistency
    rw [if_pos hlt, hop]
    cases st.legal_name.getLast? <;> rfl
  · intro hweb hlt
    have h0 : 0 < st.standard_title.length := by simpa [hweb] using hlt
    have hne : st.standard_title ≠ [] := List.length_pos.mp h0
    unfold ensure_data_consistency
    by_cases hop : st.operating_name.length < st.standard_title.length
    · rw [if_pos hop]
      cases hgo : st.operating_name.getLast? with
      | none => cases st.legal_name.getLast? <;> rfl
      | some o =>
        cases hgl : st.legal_name.getLast? with
        | none => rfl
        | some l => simp [hweb, h0, hne]
    · rw [if_neg hop]
      simp [hweb, h0, hne]

/-- Witness for C10 at two concrete states. -/
theorem reconciliation_needs_nonempty_witness :
    ensure_data_consistency ⟨[], [], [], [], ["T"], []⟩ = none ∧
    ensure_data_consistency ⟨["A"], ["B"], [], [], ["T"], []⟩ = none :=
  ⟨(reconciliation_needs_nonempty ⟨[], [], [], [], ["T"], []⟩).1 rfl (by decide),
   (reconciliation_needs_nonempty ⟨["A"], ["B"], [], [], ["T"], []⟩).2 rfl
     (by decide)⟩

theorem processSegment_none_of_no_ansi {seg : List String}
    (h : findAnsiIndex seg = none) (st : ExtractorState) :
    processSegment st seg = none := by
  have hdoc : extract_document_info seg = none := by
    simp [extract_document_info, h]
  unfold processSegment
  cases hlast : seg.getLast? with
  | none => rfl
  | some lastLine =>
    simp only [Option.bind_some, hdoc]
    cases hd : pubDates (pySplit lastLine "|") <;>
      cases hn : extract_names seg <;>
        cases hw : extract_website seg <;>
          simp

theorem foldlM_none {α β : Type} (f : β → α → Option β) {x : α} :
    ∀ (l : List α) (s : β), x ∈ l → (∀ b, f b x = none) →
    l.foldlM f s = none := by
  intro l
  induction l with
  | nil => intro s hx _; exact absurd hx (List.not_mem_nil x)
  | cons a t ih =>
    intro s hx hf
    rw [List.foldlM_cons]
    rcases List.mem_cons.mp hx with h | h
    · subst h
      rw [hf s]
      rfl
    · cases hfa : f s a with
      | none => rfl
      | some s' => simpa using ih s' h hf

theorem processPage_none_of_no_ansi {i : Nat} {t : String} {seg : List String}
    (hs : seg ∈ segmentsOf (keptLines i t)) (h : findAnsiIndex seg = none)
    (st : ExtractorState) : processPage st i t = none := by
  unfold processPage
  exact foldlM_none processSegment _ _ hs
    (fun b => processSegment_none_of_no_ansi h b)

/-- C9: if any segment of any page has no line that both starts with
`ANSI`/`INCITS` and contains a comma, `parse_text_data` aborts with an
unhandled error (modelled as `none`): no per-segment recovery, no output. -/
theorem missing_ansi_fatal (text : List String) (i : Nat) (t : String)
    (seg : List String) (hp : (i, t) ∈ pyEnumFrom 0 text)
    (hs : seg ∈ segmentsOf (keptLines i t))
    (hn : findAnsiIndex seg = none) :
    parse_text_data initState text = none := by
  unfold parse_text_data
  exact foldlM_none (fun s p => processPage s p.1 p.2) _ _ hp
    (fun b => processPage_none_of_no_ansi hs hn b)

/-- Witness for C9: a one-page input whose single segment lacks an
ANSI/INCITS line makes the whole run abort. -/
theorem missing_ansi_fatal_witness :
    parse_text_data initState [demoCrashText] = none :=
  missing_ansi_fatal [demoCrashText] 0 demoCrashText
    ["Foo", "Bar | Final Action Date: 2020"] (by decide) (by decide)
    (by decide)

theorem findAnsiIndexAux_append (rest : List String) {a : String}
    (ha : ansiLinePred a = true) :
    ∀ (pre : List String), (∀ l ∈ pre, ansiLinePred l = false) →
    ∀ k, findAnsiIndexAux k (pre ++ a :: rest) = some (k + pre.length) := by
  intro pre
  induction pre with
  | nil => intro _ k; simp [findAnsiIndexAux, ha]
  | cons p ps ih =>
    intro hpre k
    have hp : ansiLinePred p = false := hpre p (List.mem_cons_self p ps)
    have step : findAnsiIndexAux k ((p :: ps) ++ a :: rest) =
        findAnsiIndexAux (k+1) (ps ++ a :: rest) := by
      simp [findAnsiIndexAux, hp]
    rw [step, ih (fun l hl => hpre l (List.mem_cons_of_mem p hl)) (k+1)]
    congr 1
    simp only [List.length_cons]
    omega

/-- C6: in a segment whose first ANSI/INCITS-with-comma line is
`"ANSI X9.24-2021, Retail Financial Services Key Management"` followed only
by the marker line, the document-info step yields Document Name
`"ANSI X9.24-2021"` and Standard Title
`"Retail Financial Services Key Management"`. -/
theorem doc_info_first_ansi (pre : List String) (mline : String)
    (hpre : ∀ l ∈ pre, ansiLinePred l = false)
    (_hm : strContains mline markerStr = true) :
    extract_document_info
      (pre ++ ["ANSI X9.24-2021, Retail Financial Services Key Management",
               mline]) =
      some ("ANSI X9.24-2021", "Retail Financial Services Key Management") := by
  have hfind : findAnsiIndex
      (pre ++ ["ANSI X9.24-2021, Retail Financial Services Key Management",
               mline]) = some pre.length := by
    have h := findAnsiIndexAux_append [mline]
      (a := "ANSI X9.24-2021, Retail Financial Services Key Management")
      (by decide) pre hpre 0
    simpa [findAnsiIndex] using h
  have hbody :
      ((pre ++ ["ANSI X9.24-2021, Retail Financial Services Key Management",
                mline]).take
          ((pre ++ ["ANSI X9.24-2021, Retail Financial Services Key Management",
                    mline]).length - 1)).drop pre.length =
        ["ANSI X9.24-2021, Retail Financial Services Key Management"] := by
    have h1 : pre ++ ["ANSI X9.24-2021, Retail Financial Services Key Management",
        mline] =
        (pre ++ ["ANSI X9.24-2021, Retail Financial Services Key Management"]) ++
          [mline] := by simp
    rw [h1]
    have h2 : ((pre ++
        ["ANSI X9.24-2021, Retail Financial Services Key Management"]) ++
          [mline]).length - 1 =
        (pre ++
          ["ANSI X9.24-2021, Retail Financial Services Key Management"]).length := by
      simp
    rw [h2, List.take_left]
    exact List.drop_left pre
      ["ANSI X9.24-2021, Retail Financial Services Key Management"]
  simp only [extract_document_info, hfind]
  rw [hbody]
  decide

/-- Witness for C6 with an empty prefix and a concrete marker line. -/
theorem doc_info_first_ansi_witness :
    extract_document_info
      ["ANSI X9.24-2021, Retail Financial Services Key Management",
       "x | Final Action Date: 2020"] =
      some ("ANSI X9.24-2021", "Retail Financial Services Key Management") :=
  doc_info_first_ansi [] "x | Final Action Date: 2020" (by simp) (by decide)

theorem extract_names_append (a b : List String) :
    extract_names (a ++ b) =
      (extract_names a).bind (fun x => (extract_names b).map (fun y => x ++ y)) := by
  induction a with
  | nil =>
    cases hb : extract_names b <;> simp [extract_names, hb]
  | cons line rest ih =>
    simp only [List.cons_append, extract_names]
    by_cases hl : reMatchNamePat line = true
    · rw [if_pos hl, if_pos hl]
      cases hw : pySplitWs line with
      | nil => simp
      | cons t0 ts =>
        cases hra : extract_names rest <;>
          cases hrb : extract_names b <;>
          simp [ih, hra, hrb]
    · rw [if_neg hl, if_neg hl]
      exact ih

theorem pyWordsAux_cons (l : List Char) : ∀ (acc : List Char),
    acc.isEmpty = false → ∃ w ws, pyWordsAux l acc = w :: ws := by
  induction l with
  | nil => intro acc h; exact ⟨acc.reverse, [], by simp [pyWordsAux, h]⟩
  | cons c rest ih =>
    intro acc h
    by_cases hc : pyIsSpace c = true
    · exact ⟨acc.reverse, pyWordsAux rest [], by simp [pyWordsAux, hc, h]⟩
    · have h2 := ih (c :: acc) (by simp)
      simpa [pyWordsAux, hc] using h2

theorem words_of_match {line : String} (h : reMatchNamePat line = true) :
    ∃ w ws, pySplitWs line = w :: ws := by
  unfold reMatchNamePat at h
  cases hd : line.data with
  | nil => rw [hd] at h; cases h
  | cons c rest =>
    rw [hd] at h
    have h' : (!pyIsSpace c && namePatTail rest) = true := h
    have hc : pyIsSpace c = false := by
      cases hcc : pyIsSpace c
      · rfl
      · rw [hcc] at h'; simp at h'
    obtain ⟨w, ws, hws⟩ := pyWordsAux_cons rest [c] (by simp)
    refine ⟨⟨w⟩, ws.map (fun l => ⟨l⟩), ?_⟩
    simp [pySplitWs, pyWords, pyWordsAux, hd, hc, hws]

/-- C7: for every matching name line inside a segment, the appended Legal
Name is the `', '`-joined remaining tokens, truncated by exactly its last
106 characters when the line contains the boilerplate substring and left
unchanged otherwise. -/
theorem names_boiler_truncation (pre post : List String) (line : String)
    (nsPre nsPost : List (String × String))
    (hline : reMatchNamePat line = true)
    (hpre : extract_names pre = some nsPre)
    (hpost : extract_names post = some nsPost) :
    extract_names (pre ++ line :: post) =
      some (nsPre ++
        ((pySplitWs line).headD "",
          if strContains line boilerStr then
            pyDropRight (strJoin ", " (pySplitWs line).tail) 106
          else strJoin ", " (pySplitWs line).tail) :: nsPost) ∧
    (pyDropRight (strJoin ", " (pySplitWs line).tail) 106).data =
      (strJoin ", " (pySplitWs line).tail).data.take
        ((strJoin ", " (pySplitWs line).tail).data.length - 106) := by
  obtain ⟨w, ws, hw⟩ := words_of_match hline
  refine ⟨?_, rfl⟩
  rw [extract_names_append, hpre]
  have h1 : extract_names (line :: post) =
      some (((pySplitWs line).headD "",
        if strContains line boilerStr then
          pyDropRight (strJoin ", " (pySplitWs line).tail) 106
        else strJoin ", " (pySplitWs line).tail) :: nsPost) := by
    simp [extract_names, hline, hw, hpost]
  rw [h1]
  rfl

/-- Witness for C7 on a short boilerplate line (the joined Legal Name has
fewer than 106 characters, so the truncation empties it). -/
theorem names_boiler_truncation_witness :
    extract_names ["A (B) The data in this document is reported"] =
      some [("A", "")] := by
  have h := (names_boiler_truncation [] []
    "A (B) The data in this document is reported" [] [] (by decide) rfl rfl).1
  revert h
  decide

theorem leadsWith_iff (p : List Char) : ∀ (l : List Char),
    leadsWith p l = true ↔ ∃ t, l = p ++ t := by
  induction p with
  | nil => intro l; simp [leadsWith]
  | cons a arest ih =>
    intro l
    cases l with
    | nil =>
      simp [leadsWith]
    | cons b brest =>
      simp only [leadsWith, Bool.and_eq_true, beq_iff_eq]
      constructor
      · rintro ⟨rfl, h2⟩
        obtain ⟨t, rfl⟩ := (ih brest).mp h2
        exact ⟨t, rfl⟩
      · rintro ⟨t, ht⟩
        obtain ⟨h1, h2⟩ := List.cons.inj ht
        exact ⟨h1.symm, (ih brest).mpr ⟨t, h2⟩⟩

theorem isSubstr_iff (sub : List Char) : ∀ (l : List Char),
    isSubstr sub l = true ↔ ∃ x y, l = x ++ sub ++ y := by
  intro l
  induction l with
  | nil =>
    simp only [isSubstr, List.isEmpty_iff]
    constructor
    · rintro rfl; exact ⟨[], [], rfl⟩
    · rintro ⟨x, y, h⟩
      have h2 := h.symm
      simp only [List.append_eq_nil, List.append_assoc] at h2
      exact h2.2.1
  | cons c rest ih =>
    simp only [isSubstr, Bool.or_eq_true, ih, leadsWith_iff]
    constructor
    · rintro (⟨t, ht⟩ | ⟨x, y, rfl⟩)
      · exact ⟨[], t, by simpa using ht⟩
      · exact ⟨c :: x, y, rfl⟩
    · rintro ⟨x, y, h⟩
      cases x with
      | nil => exact Or.inl ⟨y, by simpa using h⟩
      | cons x0 xs =>
        obtain ⟨h1, h2⟩ := List.cons.inj (by simpa using h)
        exact Or.inr ⟨xs, y, by simpa [List.append_assoc] using h2⟩

theorem isSubstr_sandwich (sub x y : List Char) :
    isSubstr sub (x ++ sub ++ y) = true :=
  (isSubstr_iff sub _).mpr ⟨x, y, rfl⟩

theorem pySplitAux_skip (s0 : Char) (srest : List Char) : ∀ (l : List Char)
    (n : Nat), pySplitAux s0 srest l n = pySplitAux s0 srest (l.drop n) 0 := by
  intro l
  induction l with
  | nil => intro n; cases n <;> rfl
  | cons c rest ih =>
    intro n
    cases n with
    | zero => rfl
    | succ m =>
      have h1 : pySplitAux s0 srest (c :: rest) (m+1) =
          pySplitAux s0 srest rest m := rfl
      rw [h1, ih m]
      rfl

theorem pySplitAux_no_occ (s0 : Char) (srest : List Char) : ∀ (l : List Char),
    isSubstr (s0 :: srest) l = false → pySplitAux s0 srest l 0 = [l] := by
  intro l
  induction l with
  | nil => intro _; rfl
  | cons c rest ih =>
    intro h
    have h0 : (leadsWith (s0 :: srest) (c :: rest) ||
        isSubstr (s0 :: srest) rest) = false := h
    obtain ⟨ha, hb⟩ := Bool.or_eq_false_iff.mp h0
    have e : pySplitAux s0 srest (c :: rest) 0 =
        if leadsWith (s0 :: srest) (c :: rest) then
          [] :: pySplitAux s0 srest rest srest.length
        else
          match pySplitAux s0 srest rest 0 with
          | [] => [[c]]
          | p :: tl => (c :: p) :: tl := rfl
    rw [e, if_neg (by simp [ha]), ih hb]

theorem occ_of_occ_colon {D : List Char}
    (h : isSubstr ("Final Action Date: ".data) (D ++ [' ']) = true) :
    isSubstr ("Final Action Date".data) D = true := by
  obtain ⟨x, y, hxy⟩ := (isSubstr_iff _ _).mp h
  have hpat : ("Final Action Date: ".data) =
      ("Final Action Date".data) ++ [':', ' '] := by decide
  rw [hpat] at hxy
  rcases List.eq_nil_or_concat y with rfl | ⟨ys, c, rfl⟩
  · have h2 : D ++ [' '] =
        (x ++ ("Final Action Date".data ++ [':'])) ++ [' '] := by
      simpa [List.append_assoc] using hxy
    have h3 := (List.append_inj' h2 rfl).1
    exact (isSubstr_iff _ _).mpr ⟨x, [':'], by simpa [List.append_assoc] using h3⟩
  · rw [List.concat_eq_append] at hxy
    have h2 : D ++ [' '] =
        (x ++ (("Final Action Date".data ++ [':', ' ']) ++ ys)) ++ [c] := by
      simpa [List.append_assoc] using hxy
    have h3 := (List.append_inj' h2 rfl).1
    exact (isSubstr_iff _ _).mpr
      ⟨x, [':', ' '] ++ ys, by simpa [List.append_assoc] using h3⟩

theorem pyStripChars_space (l : List Char) :
    pyStripChars (l ++ [' ']) = pyStripChars l := by
  unfold pyStripChars
  rw [List.dropWhile_append]
  by_cases h : (l.dropWhile pyIsSpace).isEmpty
  · rw [if_pos h]
    rw [List.isEmpty_iff.mp h]
    rfl
  · rw [if_neg h]
    rw [List.reverse_append]
    have hsp : pyIsSpace ' ' = true := rfl
    simp only [List.reverse_cons, List.reverse_nil, List.nil_append,
      List.singleton_append, List.dropWhile_cons_of_pos hsp]

theorem pubDates_skip : ∀ (pre rest : List String),
    (∀ p ∈ pre, strContains p markerStr = false) →
    pubDates (pre ++ rest) = pubDates rest := by
  intro pre
  induction pre with
  | nil => intro rest _; rfl
  | cons q qs ih =>
    intro rest hpre
    have hq : strContains q markerStr = false := hpre q (List.mem_cons_self q qs)
    have e : pubDates ((q :: qs) ++ rest) = pubDates (qs ++ rest) := by
      simp [pubDates, hq]
    rw [e]
    exact ih rest (fun p hp => hpre p (List.mem_cons_of_mem q hp))

theorem pySplitChars_field {D : List Char}
    (hD : isSubstr ("Final Action Date".data) D = false) :
    pySplitChars 'F' ("inal Action Date: ".data)
      (' ' :: ("Final Action Date: ".data ++ (D ++ [' ']))) =
      [[' '], D ++ [' ']] := by
  have hno : isSubstr ('F' :: "inal Action Date: ".data) (D ++ [' ']) = false := by
    cases hcc : isSubstr ('F' :: "inal Action Date: ".data) (D ++ [' '])
    · rfl
    · have h2 : isSubstr ("Final Action Date: ".data) (D ++ [' ']) = true := hcc
      exact absurd (occ_of_occ_colon h2) (by simp [hD])
  have e1 : pySplitChars 'F' ("inal Action Date: ".data)
      (' ' :: ("Final Action Date: ".data ++ (D ++ [' ']))) =
      (match pySplitAux 'F' ("inal Action Date: ".data)
          ("Final Action Date: ".data ++ (D ++ [' '])) 0 with
       | [] => [[' ']]
       | p :: tl => (' ' :: p) :: tl) := rfl
  have e2 : pySplitAux 'F' ("inal Action Date: ".data)
      ("Final Action Date: ".data ++ (D ++ [' '])) 0 =
      [] :: pySplitAux 'F' ("inal Action Date: ".data)
        ("inal Action Date: ".data ++ (D ++ [' ']))
        ("inal Action Date: ".data).length := rfl
  have e3 : ("inal Action Date: ".data ++ (D ++ [' '])).drop
      ("inal Action Date: ".data).length = D ++ [' '] := List.drop_left _ _
  rw [e1, e2, pySplitAux_skip, e3, pySplitAux_no_occ _ _ _ hno]

/-- C5 counterexample: in the marker line
`"a | Final Action Date: X Final Action Date: Y | b"` the value
`D = "X Final Action Date: Y"` contains no pipe and the marker substring
occurs in exactly one pipe field, yet the date step appends `"X"`, not the
trimmed `D`. -/
theorem date_nested_marker_cex :
    pubDates (pySplit "a | Final Action Date: X Final Action Date: Y | b" "|") =
      some ["X"] ∧
    (pySplit "a | Final Action Date: X Final Action Date: Y | b" "|").countP
      (fun k => strContains k markerStr) = 1 ∧
    ("X" : String) ≠ pyStrip "X Final Action Date: Y" := by decide

/-- C5 (amended): if the last line of a segment splits on `|` into fields
where one field is exactly `" Final Action Date: D "`, the marker substring
occurs in no other field, and `D` itself does not contain the marker
substring, then the date step appends exactly the trimmed value of `D`. -/
theorem date_roundtrip (lastLine D : String) (pre post : List String)
    (hsplit : pySplit lastLine "|" =
      pre ++ (" Final Action Date: " ++ D ++ " ") :: post)
    (hpre : ∀ p ∈ pre, strContains p markerStr = false)
    (hpost : ∀ p ∈ post, strContains p markerStr = false)
    (hD : strContains D markerStr = false) :
    pubDates (pySplit lastLine "|") = some [pyStrip D] := by
  rw [hsplit, pubDates_skip pre _ hpre]
  have hf : strContains (" Final Action Date: " ++ D ++ " ") markerStr = true := by
    have hdata : (" Final Action Date: " ++ D ++ " ").data =
        [' '] ++ "Final Action Date".data ++ ([':', ' '] ++ (D.data ++ [' '])) := by
      have hlit : " Final Action Date: ".data =
          [' '] ++ "Final Action Date".data ++ [':', ' '] := by decide
      simp [hlit, List.append_assoc]
    show isSubstr ("Final Action Date".data)
      ((" Final Action Date: " ++ D ++ " ").data) = true
    rw [hdata]
    exact isSubstr_sandwich _ _ _
  have hDchar : isSubstr ("Final Action Date".data) D.data = false := hD
  have hsp : pySplit (" Final Action Date: " ++ D ++ " ") markerSplit =
      [" ", ⟨D.data ++ [' ']⟩] := by
    have hdata : (" Final Action Date: " ++ D ++ " ").data =
        ' ' :: ("Final Action Date: ".data ++ (D.data ++ [' '])) := by
      have hlit : " Final Action Date: ".data =
          ' ' :: "Final Action Date: ".data := by decide
      simp [hlit, List.append_assoc]
    have e : pySplit (" Final Action Date: " ++ D ++ " ") markerSplit =
        (pySplitChars 'F' ("inal Action Date: ".data)
          ((" Final Action Date: " ++ D ++ " ").data)).map (fun l => ⟨l⟩) := rfl
    rw [e, hdata, pySplitChars_field hDchar]
    rfl
  have hrest : pubDates post = some [] := by
    have h := pubDates_skip post [] hpost
    simpa using h
  simp only [pubDates, hf, if_true, hsp, hrest, Option.map_some']
  have hstrip : pyStrip ⟨D.data ++ [' ']⟩ = pyStrip D := by
    show (⟨pyStripChars (D.data ++ [' '])⟩ : String) = ⟨pyStripChars D.data⟩
    rw [pyStripChars_space]
  rw [hstrip]

/-- Witness for C5 (amended) on the spec example line. -/
theorem date_roundtrip_witness :
    pubDates (pySplit "a | Final Action Date: 2021-05-01 | b" "|") =
      some ["2021-05-01"] := by
  have h := date_roundtrip "a | Final Action Date: 2021-05-01 | b" "2021-05-01"
    ["a "] [" b"] (by decide) (by decide) (by decide) (by decide)
  revert h
  decide

theorem pubDates_length : ∀ {l ds : List String}, pubDates l = some ds →
    ds.length = l.countP (fun k => strContains k markerStr) := by
  intro l
  induction l with
  | nil =>
    intro ds h
    obtain rfl := Option.some.inj h
    rfl
  | cons k rest ih =>
    intro ds h
    by_cases hk : strContains k markerStr = true
    · simp only [pubDates, hk, if_true] at h
      cases hv : pySplit k markerSplit with
      | nil => rw [hv] at h; cases h
      | cons a t =>
        cases t with
        | nil => rw [hv] at h; cases h
        | cons v t2 =>
          rw [hv] at h
          cases hr : pubDates rest with
          | none => rw [hr] at h; cases h
          | some ds' =>
            rw [hr] at h
            obtain rfl := Option.some.inj h
            simp [List.countP_cons, hk, ih hr]
    · simp only [pubDates, hk, if_false, Bool.false_eq_true] at h
      simp [List.countP_cons, hk, ih h]

theorem extract_names_length : ∀ {l : List String}
    {ns : List (String × String)}, extract_names l = some ns →
    ns.length = l.countP reMatchNamePat := by
  intro l
  induction l with
  | nil =>
    intro ns h
    obtain rfl := Option.some.inj h
    rfl
  | cons line rest ih =>
    intro ns h
    by_cases hl : reMatchNamePat line = true
    · simp only [extract_names, hl, if_true] at h
      cases hv : pySplitWs line with
      | nil => rw [hv] at h; cases h
      | cons t0 ts =>
        rw [hv] at h
        cases hr : extract_names rest with
        | none => rw [hr] at h; cases h
        | some ns' =>
          rw [hr] at h
          obtain rfl := Option.some.inj h
          simp [List.countP_cons, hl, ih hr]
    · simp only [extract_names, hl, if_false, Bool.false_eq_true] at h
      simp [List.countP_cons, hl, ih h]

theorem extract_website_length : ∀ {l ws : List String},
    extract_website l = some ws →
    ws.length = l.countP (fun x => strContains x "w: ") := by
  intro l
  induction l with
  | nil =>
    intro ws h
    obtain rfl := Option.some.inj h
    rfl
  | cons line rest ih =>
    intro ws h
    by_cases hl : strContains line "w: " = true
    · simp only [extract_website, hl, if_true] at h
      cases hv : pySplit line "|" with
      | nil => rw [hv] at h; cases h
      | cons a t =>
        cases t with
        | nil => rw [hv] at h; cases h
        | cons f1 t2 =>
          rw [hv] at h
          simp only [] at h
          cases hv2 : pySplit f1 "w: " with
          | nil => rw [hv2] at h; cases h
          | cons b u =>
            cases u with
            | nil => rw [hv2] at h; cases h
            | cons v u2 =>
              rw [hv2] at h
              cases hr : extract_website rest with
              | none => rw [hr] at h; cases h
              | some ws' =>
                rw [hr] at h
                obtain rfl := Option.some.inj h
                simp [List.countP_cons, hl, ih hr]
    · simp only [extract_website, hl, if_false, Bool.false_eq_true] at h
      simp [List.countP_cons, hl, ih h]

theorem ec_lengths {s s' : ExtractorState}
    (h : ensure_data_consistency s = some s')
    (hleg : s.legal_name.length = s.operating_name.length)
    (hop : s.operating_name.length = s.standard_title.length ∨
      s.operating_name.length + 1 = s.standard_title.length)
    (hweb : s.website.length = s.standard_title.length ∨
      s.website.length + 1 = s.standard_title.length) :
    s'.operating_name.length = s.standard_title.length ∧
    s'.legal_name.length = s.standard_title.length ∧
    s'.website.length = s.standard_title.length ∧
    s'.document_name = s.document_name ∧
    s'.standard_title = s.standard_title ∧
    s'.publishing_date = s.publishing_date := by
  unfold ensure_data_consistency at h
  by_cases h1 : s.operating_name.length < s.standard_title.length
  · rw [if_pos h1] at h
    cases hgo : s.operating_name.getLast? with
    | none =>
      rw [hgo] at h
      cases hgl : s.legal_name.getLast? <;> rw [hgl] at h <;> cases h
    | some o =>
      rw [hgo] at h
      cases hgl : s.legal_name.getLast? with
      | none => rw [hgl] at h; cases h
      | some lx =>
        rw [hgl] at h
        simp only [] at h
        by_cases h2 : s.website.length < s.standard_title.length
        · rw [if_pos (by simpa using h2)] at h
          cases hgw : s.website.getLast? with
          | none => rw [hgw] at h; cases h
          | some w =>
            rw [hgw] at h
            obtain rfl := (Option.some.inj h).symm
            refine ⟨?_, ?_, ?_, rfl, rfl, rfl⟩ <;> simp <;> omega
        · rw [if_neg (by simpa using h2)] at h
          obtain rfl := (Option.some.inj h).symm
          refine ⟨?_, ?_, ?_, rfl, rfl, rfl⟩ <;> simp <;> omega
  · rw [if_neg h1] at h
    simp only [] at h
    by_cases h2 : s.website.length < s.standard_title.length
    · rw [if_pos h2] at h
      cases hgw : s.website.getLast? with
      | none => rw [hgw] at h; cases h
      | some w =>
        rw [hgw] at h
        obtain rfl := (Option.some.inj h).symm
        refine ⟨?_, ?_, ?_, rfl, rfl, rfl⟩ <;> simp <;> omega
    · rw [if_neg h2] at h
      obtain rfl := (Option.some.inj h).symm
      refine ⟨?_, ?_, ?_, rfl, rfl, rfl⟩ <;> omega

theorem step_preserves {st st' : ExtractorState} {seg : List String} {n : Nat}
    (hopn : st.operating_name.length = n)
    (hlegn : st.legal_name.length = n)
    (hdocn : st.document_name.length = n)
    (hstln : st.standard_title.length = n)
    (hdaten : st.publishing_date.length = n)
    (hwebn : (st.website.length = n ∧
        seg.countP (fun l => strContains l "w: ") ≤ 1) ∨
      (st.website.length = n + 1 ∧
        seg.countP (fun l => strContains l "w: ") = 0))
    (hnames : seg.countP reMatchNamePat ≤ 1)
    (hmark : (pySplit ((seg.getLast?).getD "") "|").countP
        (fun k => strContains k markerStr) = 1)
    (h : processSegment st seg = some st') : lensEq st' (n+1) := by
  unfold processSegment at h
  cases hlast : seg.getLast? with
  | none => rw [hlast] at h; cases h
  | some lastLine =>
    rw [hlast] at h
    rw [Option.some_bind] at h
    cases hd : pubDates (pySplit lastLine "|") with
    | none => rw [hd] at h; cases h
    | some ds =>
      rw [hd, Option.some_bind] at h
      cases hn : extract_names seg with
      | none => rw [hn] at h; cases h
      | some ns =>
        rw [hn, Option.some_bind] at h
        cases hw : extract_website seg with
        | none => rw [hw] at h; cases h
        | some ws =>
          rw [hw, Option.some_bind] at h
          cases hdi : extract_document_info seg with
          | none => rw [hdi] at h; cases h
          | some di =>
            rw [hdi, Option.some_bind] at h
            have hds : ds.length = 1 := by
              rw [pubDates_length hd]
              rw [hlast] at hmark
              simpa using hmark
            have hnsl : ns.length ≤ 1 := by
              rw [extract_names_length hn]; exact hnames
            have hec := ec_lengths h ?_ ?_ ?_
            · obtain ⟨e1, e2, e3, e4, e5, e6⟩ := hec
              refine ⟨?_, ?_, ?_, ?_, ?_, ?_⟩
              · rw [e1]; simp [hstln]
              · rw [e2]; simp [hstln]
              · rw [e3]; simp [hstln]
              · rw [e4]; simp [hdocn]
              · rw [e5]; simp [hstln]
              · rw [e6]; simp [hdaten, hds]
            · simp [hopn, hlegn]
            · simp only [List.length_append, List.length_map, List.length_cons,
                List.length_nil]
              omega
            · have hwsl := extract_website_length hw
              rcases hwebn with ⟨hw1, hcnt⟩ | ⟨hw1, hcnt⟩ <;>
                simp only [List.length_append, List.length_cons,
                  List.length_nil] <;>
                omega

theorem fold_preserves : ∀ (segs : List (List String))
    {st st' : ExtractorState} {n : Nat}, lensEq st n →
    (∀ s ∈ segs, goodSegment s) →
    segs.foldlM processSegment st = some st' →
    lensEq st' (n + segs.length) := by
  intro segs
  induction segs with
  | nil =>
    intro st st' n hst _ h
    rw [List.foldlM_nil] at h
    obtain rfl := (Option.some.inj h).symm
    simpa using hst
  | cons s rest ih =>
    intro st st' n hst hg h
    rw [List.foldlM_cons] at h
    cases hps : processSegment st s with
    | none => rw [hps] at h; simp at h
    | some st1 =>
      rw [hps] at h
      simp only [Option.bind_eq_bind, Option.some_bind] at h
      have hgs := hg s (List.mem_cons_self s rest)
      have h1 : lensEq st1 (n+1) :=
        step_preserves hst.1 hst.2.1 hst.2.2.2.1 hst.2.2.2.2.1 hst.2.2.2.2.2
          (Or.inl ⟨hst.2.2.1, hgs.2.1⟩) hgs.1 hgs.2.2 hps
      have h2 := ih h1 (fun x hx => hg x (List.mem_cons_of_mem s hx)) h
      have heq : n + 1 + rest.length = n + (s :: rest).length := by
        simp [List.length_cons]; omega
      exact heq ▸ h2

theorem page_preserves {st st' : ExtractorState} {n i : Nat} {t : String}
    (hst : lensEq st n) (hg : goodPage i t)
    (h : processPage st i t = some st') :
    lensEq st' (n + (segmentsOf (keptLines i t)).length) := by
  unfold processPage at h
  by_cases hw : ((keptLines i t).filter (fun x => strContains x "w: ")).isEmpty = true
  · rw [if_pos hw] at h
    cases hI : finalActionIndices (keptLines i t) with
    | nil => exact absurd (List.isEmpty_iff.mp hw) (hg.2 hI)
    | cons i0 irest =>
      have hsegs : segmentsOf (keptLines i t) =
          ((keptLines i t).take (i0+1)).drop 0 ::
            segmentsAux (keptLines i t) irest (i0+1) := by
        rw [segmentsOf, hI]
        rfl
      rw [hsegs, List.foldlM_cons] at h
      cases hps : processSegment { st with website := st.website ++ ["Nil"] }
          (((keptLines i t).take (i0+1)).drop 0) with
      | none => rw [hps] at h; simp at h
      | some st1 =>
        rw [hps] at h
        simp only [Option.bind_eq_bind, Option.some_bind] at h
        have hmem0 : (((keptLines i t).take (i0+1)).drop 0) ∈
            segmentsOf (keptLines i t) := by
          rw [hsegs]; exact List.mem_cons_self _ _
        have hgs := hg.1 _ hmem0
        have hcnt0 : (((keptLines i t).take (i0+1)).drop 0).countP
            (fun l => strContains l "w: ") = 0 := by
          apply List.countP_eq_zero.mpr
          intro a ha
          have hmem : a ∈ keptLines i t :=
            List.mem_of_mem_take (List.mem_of_mem_drop ha)
          exact List.filter_eq_nil_iff.mp (List.isEmpty_iff.mp hw) a hmem
        have h1 : lensEq st1 (n+1) :=
          step_preserves (by simp [hst.1]) (by simp [hst.2.1])
            (by simp [hst.2.2.2.1]) (by simp [hst.2.2.2.2.1])
            (by simp [hst.2.2.2.2.2])
            (Or.inr ⟨by simp [hst.2.2.1], hcnt0⟩) hgs.1 hgs.2.2 hps
        have hgrest : ∀ x ∈ segmentsAux (keptLines i t) irest (i0+1),
            goodSegment x := by
          intro x hx
          apply hg.1
          rw [hsegs]
          exact List.mem_cons_of_mem _ hx
        have h2 := fold_preserves _ h1 hgrest h
        rw [hsegs]
        have heq : n + 1 + (segmentsAux (keptLines i t) irest (i0+1)).length =
            n + (((keptLines i t).take (i0+1)).drop 0 ::
              segmentsAux (keptLines i t) irest (i0+1)).length := by
          simp only [List.length_cons]
          omega
        exact heq ▸ h2
  · rw [if_neg hw] at h
    exact fold_preserves _ hst hg.1 h

theorem parse_preserves : ∀ (text : List String) (k : Nat)
    {st st' : ExtractorState} {n : Nat}, lensEq st n →
    (∀ p ∈ pyEnumFrom k text, goodPage p.1 p.2) →
    (pyEnumFrom k text).foldlM (fun s p => processPage s p.1 p.2) st =
      some st' →
    lensEq st' (n + ((pyEnumFrom k text).map
      (fun p => (segmentsOf (keptLines p.1 p.2)).length)).sum) := by
  intro text
  induction text with
  | nil =>
    intro k st st' n hst _ h
    rw [show pyEnumFrom k ([] : List String) = [] from rfl,
      List.foldlM_nil] at h
    obtain rfl := (Option.some.inj h).symm
    simpa [pyEnumFrom] using hst
  | cons t ts ih =>
    intro k st st' n hst hg h
    rw [show pyEnumFrom k (t :: ts) = (k, t) :: pyEnumFrom (k+1) ts from rfl,
      List.foldlM_cons] at h
    simp only [] at h
    cases hpp : processPage st k t with
    | none => rw [hpp] at h; simp at h
    | some st1 =>
      rw [hpp] at h
      simp only [Option.bind_eq_bind, Option.some_bind] at h
      have hgp : goodPage k t := hg (k, t) (by
        rw [show pyEnumFrom k (t :: ts) = (k, t) :: pyEnumFrom (k+1) ts from rfl]
        exact List.mem_cons_self _ _)
      have h1 := page_preserves hst hgp hpp
      have h2 := ih (k+1) h1 (fun p hp => hg p (by
        rw [show pyEnumFrom k (t :: ts) = (k, t) :: pyEnumFrom (k+1) ts from rfl]
        exact List.mem_cons_of_mem _ hp)) h
      rw [show pyEnumFrom k (t :: ts) = (k, t) :: pyEnumFrom (k+1) ts from rfl]
      simp only [List.map_cons, List.sum_cons]
      have heq : n + (segmentsOf (keptLines k t)).length +
          ((pyEnumFrom (k+1) ts).map
            (fun p => (segmentsOf (keptLines p.1 p.2)).length)).sum =
          n + ((segmentsOf (keptLines k t)).length +
            ((pyEnumFrom (k+1) ts).map
              (fun p => (segmentsOf (keptLines p.1 p.2)).length)).sum) := by
        omega
      exact heq ▸ h2

/-- C3 counterexample: on a completing one-segment run whose segment has
two name-pattern lines, the six lists end with lengths 2,2,1,1,1,1, so
they are not all equal to the number of segments. -/
theorem parse_completes_unequal_cex :
    parse_text_data initState [demoDriftText] =
      some ⟨["A", "C"], ["(B)", "(D)"], ["e.com"], ["ANSI 1"], ["T"],
        ["2020"]⟩ ∧
    totalSegments [demoDriftText] = 1 ∧
    (⟨["A", "C"], ["(B)", "(D)"], ["e.com"], ["ANSI 1"], ["T"],
      ["2020"]⟩ : ExtractorState).operating_name.length ≠
    (⟨["A", "C"], ["(B)", "(D)"], ["e.com"], ["ANSI 1"], ["T"],
      ["2020"]⟩ : ExtractorState).standard_title.length := by decide

/-- C3 (amended): if `parse_text_data` completes and every segment contains
at most one name-pattern line, at most one `'w: '` line and exactly one
marker-bearing pipe field in its last line, and every zero-marker page has
a `'w: '` line among its kept lines, then the six accumulator lists end
with equal length, equal to the total number of segments processed. -/
theorem parse_lengths_eq (text : List String) (st' : ExtractorState)
    (hgood : ∀ p ∈ pyEnumFrom 0 text, goodPage p.1 p.2)
    (hdone : parse_text_data initState text = some st') :
    st'.operating_name.length = totalSegments text ∧
    st'.legal_name.length = totalSegments text ∧
    st'.website.length = totalSegments text ∧
    st'.document_name.length = totalSegments text ∧
    st'.standard_title.length = totalSegments text ∧
    st'.publishing_date.length = totalSegments text := by
  have h0 : lensEq initState 0 := by simp [lensEq, initState]
  have hd2 : (pyEnumFrom 0 text).foldlM (fun s p => processPage s p.1 p.2)
      initState = some st' := hdone
  have h := parse_preserves text 0 h0 hgood hd2
  simpa [lensEq, totalSegments] using h

/-- Witness for C3 (amended) on a well-behaved one-page, one-segment
input. -/
theorem parse_lengths_eq_witness :
    (⟨["Acme"], ["(Acme, Corp)"], ["acme.org"], ["ANSI X1"], ["Title One"],
      ["2021-05-01"]⟩ : ExtractorState).operating_name.length =
      totalSegments [demoGoodText] ∧
    (⟨["Acme"], ["(Acme, Corp)"], ["acme.org"], ["ANSI X1"], ["Title One"],
      ["2021-05-01"]⟩ : ExtractorState).legal_name.length =
      totalSegments [demoGoodText] ∧
    (⟨["Acme"], ["(Acme, Corp)"], ["acme.org"], ["ANSI X1"], ["Title One"],
      ["2021-05-01"]⟩ : ExtractorState).website.length =
      totalSegments [demoGoodText] ∧
    (⟨["Acme"], ["(Acme, Corp)"], ["acme.org"], ["ANSI X1"], ["Title One"],
      ["2021-05-01"]⟩ : ExtractorState).document_name.length =
      totalSegments [demoGoodText] ∧
    (⟨["Acme"], ["(Acme, Corp)"], ["acme.org"], ["ANSI X1"], ["Title One"],
      ["2021-05-01"]⟩ : ExtractorState).standard_title.length =
      totalSegments [demoGoodText] ∧
    (⟨["Acme"], ["(Acme, Corp)"], ["acme.org"], ["ANSI X1"], ["Title One"],
      ["2021-05-01"]⟩ : ExtractorState).publishing_date.length =
      totalSegments [demoGoodText] :=
  parse_lengths_eq [demoGoodText]
    ⟨["Acme"], ["(Acme, Corp)"], ["acme.org"], ["ANSI X1"], ["Title One"],
      ["2021-05-01"]⟩ (by decide) (by decide)

end PdfAnsi
